import Mathlib

/-!
Shallow embedding of the invoice-total disambiguation engine of
`src/validator.py`: the functions `_amount_to_number`, the local
`amounts_in` helper, the candidate generation, the `score_item` closure
and the final selection of `pick_invoice_total`, together with the
default configuration built by `merge_total_field`.

Modelling choices:
* text is `List Char`; Python `str.lower` is ASCII lowering (all inputs
  here are ASCII);
* Python floats are `Option ℚ`, `none` standing for the `float("nan")`
  sentinel returned by `_amount_to_number` on unparsable text;
* `re.findall` of the default amount pattern
  `\$?\s*-?\(?\d{1,3}(?:,\d{3})*(?:\.\d{2})?\)?` is implemented as a
  deterministic greedy scanner: after the mandatory digit block every
  piece of the pattern is optional and no optional piece can consume a
  character that a later piece needs, so the greedy left-to-right
  strategy of `re` never backtracks on this pattern;
* Python `max(xs, key=f)` is a left fold that replaces the current best
  only on a strict `>` of the keys, which keeps the first maximum and
  never replaces a `nan`-keyed best (comparisons against `nan` are
  false).
-/

set_option maxRecDepth 100000

namespace Validator

/-- ASCII lowering, as Python `str.lower` acts on the ASCII inputs used
throughout `pick_invoice_total`. -/
def lower (l : List Char) : List Char := l.map Char.toLower

/-- the ASCII whitespace class of Python `str.strip` and of `\s` in the
amount pattern. -/
def isSpacePy (c : Char) : Bool :=
  c == ' ' || c == '\t' || c == '\n' || c == '\r' || c == '\x0b' || c == '\x0c'

/-- the digit class `\d` (ASCII digits). -/
def isDigitC (c : Char) : Bool := '0' ≤ c && c ≤ '9'

/-- Python `str.strip`. -/
def pyStrip (l : List Char) : List Char :=
  ((l.dropWhile isSpacePy).reverse.dropWhile isSpacePy).reverse

/-- decidable "starts with" test used by the substring search. -/
def isPre : List Char → List Char → Bool
  | [], _ => true
  | _ :: _, [] => false
  | a :: as, b :: bs => a == b && isPre as bs

/-- Python substring containment `needle in haystack`. -/
def containsSub (n : List Char) : List Char → Bool
  | [] => isPre n []
  | l@(_ :: t) => isPre n l || containsSub n t

/-- Python `str.find`: index of the first occurrence of a substring. -/
def findSub (n : List Char) : List Char → Option Nat
  | [] => if isPre n [] then some 0 else none
  | l@(_ :: t) => if isPre n l then some 0 else (findSub n t).map (· + 1)

/-- one optional literal character of the amount pattern (`\$?`, `-?`,
`\(?`, `\)?`): returns the consumed characters and the rest. -/
def eatOpt (c : Char) : List Char → List Char × List Char
  | [] => ([], [])
  | x :: t => if x == c then ([x], t) else ([], x :: t)

/-- the piece `\s*` of the amount pattern. -/
def eatWs (l : List Char) : List Char × List Char :=
  (l.takeWhile isSpacePy, l.dropWhile isSpacePy)

/-- the piece `\d{1,3}` of the amount pattern (greedy, at most three digits; the
consumed part is empty when no digit is present, which makes the whole
match fail). -/
def eatD3 (l : List Char) : List Char × List Char :=
  let ds := (l.takeWhile isDigitC).take 3
  (ds, l.drop ds.length)

/-- the piece `(?:,\d{3})*` of the amount pattern (greedy). -/
def eatGroups : List Char → List Char × List Char
  | ',' :: a :: b :: c :: t =>
    if isDigitC a && isDigitC b && isDigitC c then
      let r := eatGroups t
      (',' :: a :: b :: c :: r.1, r.2)
    else ([], ',' :: a :: b :: c :: t)
  | l => ([], l)

/-- the piece `(?:\.\d{2})?` of the amount pattern. -/
def eatFrac : List Char → List Char × List Char
  | c :: a :: b :: t =>
    if c == '.' && isDigitC a && isDigitC b then ([c, a, b], t)
    else ([], c :: a :: b :: t)
  | l => ([], l)

/-- one attempted match of the default amount pattern
`\$?\s*-?\(?\d{1,3}(?:,\d{3})*(?:\.\d{2})?\)?` at the start of `l`,
returning the matched token and the remaining text. -/
def matchAmount (l : List Char) : Option (List Char × List Char) :=
  let e1 := eatOpt '$' l
  let e2 := eatWs e1.2
  let e3 := eatOpt '-' e2.2
  let e4 := eatOpt '(' e3.2
  let e5 := eatD3 e4.2
  if e5.1.isEmpty then none
  else
    let e6 := eatGroups e5.2
    let e7 := eatFrac e6.2
    let e8 := eatOpt ')' e7.2
    some (e1.1 ++ e2.1 ++ e3.1 ++ e4.1 ++ e5.1 ++ e6.1 ++ e7.1 ++ e8.1, e8.2)

/-- whether the default amount pattern matches the whole string, stage by
stage (the recogniser form of `matchAmount`). -/
def amountRegexFullMatch (s : List Char) : Bool :=
  let e1 := eatOpt '$' s
  let e2 := eatWs e1.2
  let e3 := eatOpt '-' e2.2
  let e4 := eatOpt '(' e3.2
  let e5 := eatD3 e4.2
  if e5.1.isEmpty then false
  else
    let e6 := eatGroups e5.2
    let e7 := eatFrac e6.2
    let e8 := eatOpt ')' e7.2
    e8.2.isEmpty

/-- the `re.findall` scan: try a match at every position, restarting after
each matched token.  `fuel` only bounds the recursion; any `fuel ≥ l.length`
is enough because every step consumes at least one character. -/
def findAllAux : Nat → List Char → List (List Char)
  | 0, _ => []
  | fuel + 1, l =>
    match matchAmount l with
    | some (tok, rest) => tok :: findAllAux fuel rest
    | none =>
      match l with
      | [] => []
      | _ :: t => findAllAux fuel t

/-- the `amounts_in` helper of `pick_invoice_total` instantiated with the
default amount pattern: all pattern matches in the text, each stripped. -/
def amounts_in (text : List Char) : List (List Char) :=
  (findAllAux text.length text).map pyStrip

/-- value of a digit string. -/
def digitsVal (l : List Char) : Nat :=
  l.foldl (fun n c => 10 * n + (c.toNat - 48)) 0

/-- optional sign of a float literal or exponent, as an integer coefficient. -/
def splitSign (l : List Char) : Int × List Char :=
  match l with
  | c :: t => if c == '+' then (1, t) else if c == '-' then (-1, t) else (1, c :: t)
  | [] => (1, [])

/-- fractional digits after a decimal point, if one is present. -/
def splitFrac (l : List Char) : List Char × List Char :=
  match l with
  | c :: t =>
    if c == '.' then (t.takeWhile isDigitC, t.dropWhile isDigitC) else ([], c :: t)
  | [] => ([], [])

/-- exponent tail of a float literal (the `e`/`E` already consumed): the
mantissa so far is `num / 10^k`, and the result multiplies it by the power
of ten given by the exponent digits.  The value is assembled with `mkRat`
so that it evaluates by kernel reduction. -/
def pyExpCont (num : Int) (k : Nat) (t : List Char) : Option ℚ :=
  let s := splitSign t
  let ed := s.2.takeWhile isDigitC
  let r := s.2.dropWhile isDigitC
  if ed.isEmpty || !r.isEmpty then none
  else
    let e : Int := s.1 * (digitsVal ed : Int)
    if 0 ≤ e - (k : Int) then some (mkRat (num * (10 : Int) ^ (e - (k : Int)).toNat) 1)
    else some (mkRat num ((10 : Nat) ^ ((k : Int) - e).toNat))

/-- Python `float(s)` on decimal and scientific literals, as exercised by
`_amount_to_number`; `none` models the `ValueError` caught there.  The
special literals `inf`/`nan` and underscore digit separators are not
modelled.  The parsed value `sign · (ip + fp/10^k)` is assembled as the
single fraction `sign · (ip·10^k + fp) / 10^k` via `mkRat`, so that it
evaluates by kernel reduction. -/
def pyFloat (l0 : List Char) : Option ℚ :=
  let l := pyStrip l0
  let s1 := splitSign l
  let ip := s1.2.takeWhile isDigitC
  let l2 := s1.2.dropWhile isDigitC
  let fr := splitFrac l2
  if ip.isEmpty && fr.1.isEmpty then none
  else
    let k := fr.1.length
    let num : Int := s1.1 * ((digitsVal ip : Int) * (10 : Int) ^ k + (digitsVal fr.1 : Int))
    match fr.2 with
    | [] => some (mkRat num ((10 : Nat) ^ k))
    | c :: t => if c == 'e' || c == 'E' then pyExpCont num k t else none

/-- the character-removal step of `_amount_to_number` (the chained
`.replace` calls deleting `$`, `,`, `(` and `)`). -/
def keepChar (c : Char) : Bool :=
  !(c == '$' || c == ',' || c == '(' || c == ')')

/-- the residual text `_amount_to_number` hands to `float`. -/
def cleanAmount (txt : List Char) : List Char :=
  pyStrip ((pyStrip txt).filter keepChar)

/-- embedding of `_amount_to_number`: strip, detect a parenthesised
negative, delete currency and grouping characters, parse; `none` is the
`float("nan")` sentinel of the exception branch. -/
def amount_to_number (txt : List Char) : Option ℚ :=
  let s := pyStrip txt
  let neg := s.head? == some '(' && s.getLast? == some ')'
  match pyFloat (cleanAmount txt) with
  | some v => some (if neg then -v else v)
  | none => none


/-- the evidence dictionary attached to a candidate: `{"anchor": True}`,
`{"anchor_next": j}` or `{"totalish": True}` (absent keys are falsy). -/
structure Flags where
  anchor : Bool := false
  anchorNext : Option Nat := none
  totalish : Bool := false
deriving DecidableEq

/-- a candidate tuple `(amount_text, value, line_idx, line_text, flags)`. -/
structure Cand where
  amt : List Char
  val : Option ℚ
  idx : Nat
  line : List Char
  flags : Flags
deriving DecidableEq

/-- Python `min(hits, key=...)`: a left fold that keeps the first minimum. -/
def pyMinBy (key : List Char → Nat) (c0 : List Char) (rest : List (List Char)) :
    List Char :=
  rest.foldl (fun b x => if key x < key b then x else b) c0

/-- the anchor pass of `pick_invoice_total` for line `i`: skip the line
entirely when it contains a discourage word; otherwise take the left-most
anchor present, the right-most amount to its right as an `anchor`
candidate, and the right-most amount of each of the next `lookahead`
non-discourage lines as an `anchor_next` candidate. -/
def anchorCandsLine (lines : List (List Char)) (anchors discourage : List (List Char))
    (lookahead : Nat) (amountsIn : List Char → List (List Char)) (i : Nat)
    (ln : List Char) : List Cand :=
  let low := lower ln
  if discourage.any (fun dw => containsSub dw low) then []
  else
    match anchors.filter (fun a => containsSub (lower a) low) with
    | [] => []
    | a0 :: hits =>
      let a := pyMinBy (fun x => (findSub (lower x) low).getD 0) a0 hits
      let cut := (findSub (lower a) low).getD 0
      let sameLine :=
        match (amountsIn (ln.drop (cut + a.length))).getLast? with
        | some amt => [⟨amt, amount_to_number amt, i, ln, {anchor := true}⟩]
        | none => []
      let nexts :=
        (List.range lookahead).flatMap fun j =>
          match lines[i + j + 1]? with
          | some nxt =>
            if discourage.any (fun dw => containsSub dw (lower nxt)) then []
            else
              match (amountsIn nxt).getLast? with
              | some amt =>
                [⟨amt, amount_to_number amt, i + j + 1, nxt, {anchorNext := some (j + 1)}⟩]
              | none => []
          | none => []
      sameLine ++ nexts

/-- the built-in total-ish vocabulary of `pick_invoice_total`. -/
def baseTotalish : List (List Char) :=
  ["total", "amount due", "balance due", "invoice amount",
   "net invoice amount", "grand total", "total due"].map String.toList

/-- the total-ish pass of `pick_invoice_total` for line `i`: any line
containing one of the phrases contributes its right-most amount,
discourage words notwithstanding.  The Python code draws the phrases from
`tuple(set(base + due_keywords + net_keywords))`; they are only consumed
through `any`, so the plain concatenation has the same effect as that
set. -/
def totalishCandsLine (due net : List (List Char))
    (amountsIn : List Char → List (List Char)) (i : Nat) (ln : List Char) : List Cand :=
  let low := lower ln
  if (baseTotalish ++ due ++ net).any (fun t => containsSub t low) then
    match (amountsIn ln).getLast? with
    | some amt => [⟨amt, amount_to_number amt, i, ln, {totalish := true}⟩]
    | none => []
  else []

/-- both heuristic passes of `pick_invoice_total`, in the order the Python
code appends candidates. -/
def genCandidates (lines anchors discourage due net : List (List Char))
    (lookahead : Nat) (amountsIn : List Char → List (List Char)) : List Cand :=
  (lines.enum.flatMap fun p => anchorCandsLine lines anchors discourage lookahead amountsIn p.1 p.2)
    ++ (lines.enum.flatMap fun p => totalishCandsLine due net amountsIn p.1 p.2)

/-- the document-wide fallback list of `pick_invoice_total`: every amount
token of every line, with no keyword or discourage-word filtering at all. -/
def allAmounts (lines : List (List Char)) (amountsIn : List Char → List (List Char)) :
    List Cand :=
  lines.enum.flatMap fun p => (amountsIn p.2).map fun amt =>
    ⟨amt, amount_to_number amt, p.1, p.2, {}⟩

/-- embedding of the `score_item` closure of `pick_invoice_total`.  The
integer accumulator mirrors the Python `s`; the final line expresses
`s + 2.0 * (idx / N)` as the single fraction `(s·N + 2·idx) / N` via
`mkRat` so that scores evaluate by kernel reduction (the equivalence with
the sum-of-terms form is proved below). -/
def score_item (N : Nat) (due net discourage : List (List Char)) (c : Cand) : ℚ :=
  let low := lower c.line
  let s : Int := 0
  let s := if c.flags.anchor then s + 6 else s
  let s := if due.any (fun k => containsSub k low) then s + 5 else s
  let s := if c.flags.anchorNext.isSome then s + 3 else s
  let s := if net.any (fun k => containsSub k low) then s + 1 else s
  let s := if discourage.any (fun dw => containsSub dw low) then s - 6 else s
  mkRat (s * (N : Int) + 2 * (c.idx : Int)) N

/-- Python `>` on float values where `none` models `nan`: any comparison
involving `nan` is false. -/
def pyValGT (a b : Option ℚ) : Bool :=
  match a, b with
  | some x, some y => decide (y < x)
  | _, _ => false

/-- Python `>` on the `(score, value)` key tuples (scores are never `nan`;
when the scores are equal the values decide, and a `nan` value makes the
comparison false). -/
def pyKeyGT (a b : ℚ × Option ℚ) : Bool :=
  if a.1 = b.1 then pyValGT a.2 b.2 else decide (b.1 < a.1)

/-- Python `max(xs, key=...)`: a left fold that replaces the current best
only on a strict `>` of the keys, hence keeps the first maximum. -/
def pyMaxG {α : Type} (gt : α → α → Bool) (c0 : α) (rest : List α) : α :=
  rest.foldl (fun b x => if gt x b then x else b) c0

/-- the selector `max(candidates, key=lambda it: (score_item(it), it[1]))`. -/
def selectBest (N : Nat) (due net discourage : List (List Char)) (c0 : Cand)
    (rest : List Cand) : Cand :=
  pyMaxG (fun x b =>
      pyKeyGT (score_item N due net discourage x, x.val)
        (score_item N due net discourage b, b.val)) c0 rest

/-- the fallback `max(all_amts, key=lambda t: t[1])`. -/
def fallbackBest (c0 : Cand) (rest : List Cand) : Cand :=
  pyMaxG (fun x b => pyValGT x.val b.val) c0 rest

/-- embedding of `pick_invoice_total`.  `amountsIn` stands for
`re.findall` of the configured amount pattern followed by the per-hit
strip; `amounts_in` is its instantiation at the default pattern.  The
word lists are lowercased on entry exactly as in the Python function. -/
def pick_invoice_total (lines anchors : List (List Char))
    (amountsIn : List Char → List (List Char)) (discourage0 : List (List Char))
    (lookahead : Nat) (due0 net0 : List (List Char)) : Option (List Char) × String :=
  let discourage := discourage0.map lower
  let due := due0.map lower
  let net := net0.map lower
  match genCandidates lines anchors discourage due net lookahead amountsIn with
  | c0 :: rest =>
    let N : Nat := max 1 lines.length
    (some (selectBest N due net discourage c0 rest).amt, "total_scored_final")
  | [] =>
    match allAmounts lines amountsIn with
    | a0 :: rest => (some (fallbackBest a0 rest).amt, "total_max_in_doc")
    | [] => (none, "total_not_found")

/-- the default `anchors` of `merge_total_field`. -/
def default_anchors : List (List Char) :=
  ["Invoice Amount", "Total Due", "Amount Due", "Net Invoice Amount",
   "Grand Total", "Balance Due"].map String.toList

/-- the default `discourage` list of `merge_total_field`. -/
def default_discourage : List (List Char) :=
  ["subtotal", "sales tax", "tax", "shipping", "freight", "handling",
   "other charges", "misc"].map String.toList

/-- the default `due_keywords` of `merge_total_field`. -/
def default_due : List (List Char) :=
  ["total due", "amount due", "balance due", "grand total"].map String.toList

/-- the default `net_keywords` of `merge_total_field`. -/
def default_net : List (List Char) :=
  ["net invoice amount", "invoice amount", "net total"].map String.toList

/-- the function `pick_invoice_total` under the fully-default configuration of
`merge_total_field` (default anchors, amount pattern, word lists and
`lookahead_lines = 2`). -/
def runDefault (lines : List String) : Option (List Char) × String :=
  pick_invoice_total (lines.map String.toList) default_anchors amounts_in
    default_discourage 2 default_due default_net

/-- the fixed adjuster vocabulary named by the spec (§4.1 step 1). -/
def adjusterVocab : List (List Char) :=
  ["tax", "sales tax", "shipping", "freight", "handling", "other charges",
   "misc"].map String.toList

/-- Modelled from the spec: the "adjuster index set" of §4.1 step 1, the
line indices whose lowercased text contains an adjuster phrase.  No such
set exists in `pick_invoice_total`; it is needed only to state the spec's
claimed scoring formula. -/
def adjusterIdx (lines : List (List Char)) : List Nat :=
  (lines.enum.filter fun p => adjusterVocab.any fun v => containsSub v (lower p.2)).map
    fun p => p.1

/-- Modelled from the spec: the scoring formula claimed in §4.2
(`+6` anchor, `+7` due keyword, `+3` anchor_next, `+3` net keyword,
`+3` tax-context bonus when one of the previous eight lines up to and
including the candidate's own line is an adjuster line, `-6` discourage,
`+2·idx/N`), for comparison with the actual `score_item`. -/
def spec_claimed_score (lines : List (List Char)) (N : Nat)
    (due net discourage : List (List Char)) (c : Cand) : ℚ :=
  (if c.flags.anchor then (6 : ℚ) else 0)
    + (if due.any (fun k => containsSub k (lower c.line)) then 7 else 0)
    + (if c.flags.anchorNext.isSome then 3 else 0)
    + (if net.any (fun k => containsSub k (lower c.line)) then 3 else 0)
    + (if (adjusterIdx lines).any (fun j => decide (c.idx - 8 ≤ j) && decide (j ≤ c.idx))
        then 3 else 0)
    - (if discourage.any (fun dw => containsSub dw (lower c.line)) then 6 else 0)
    + 2 * ((c.idx : ℚ) / (N : ℚ))

/-- tokenisation by maximal runs of non-whitespace characters: the
`re.findall` behaviour of the pattern `\S+`, which a vendor configuration
may supply for the `regex` option of `pick_invoice_total`. -/
def splitWsAux : List Char → List Char → List (List Char)
  | [], acc => if acc.isEmpty then [] else [acc.reverse]
  | c :: t, acc =>
    if isSpacePy c then
      if acc.isEmpty then splitWsAux t [] else acc.reverse :: splitWsAux t []
    else splitWsAux t (c :: acc)

/-- the `amounts_in` analogue for the vendor-configurable pattern `\S+` (each hit is
already whitespace-free, so the per-hit strip is the identity). -/
def splitWsTokens (l : List Char) : List (List Char) :=
  splitWsAux l []

/-- a concrete candidate used to instantiate the selector theorems. -/
def candA : Cand :=
  ⟨"$10.00".toList, some (mkRat 10 1), 0, "Total $10.00".toList, {totalish := true}⟩

/-- a second concrete candidate with the same line and score but a larger
value. -/
def candB : Cand :=
  ⟨"$20.00".toList, some (mkRat 20 1), 0, "Total $10.00".toList, {totalish := true}⟩


/-- the one-line document of C2's counterexample. -/
def linesC2 : List (List Char) := ["Total Due $10.00"].map String.toList

/-- the total-ish candidate the code generates for `linesC2`. -/
def candC2 : Cand :=
  ⟨"$10.00".toList, some (mkRat 10 1), 0, "Total Due $10.00".toList, {totalish := true}⟩

/-- a keyword-free two-line document that exercises the fallback path. -/
def linesC6 : List (List Char) := ["abc $12.00", "def $99.00"].map String.toList

/-- the first fallback token of `linesC6`. -/
def candC6a : Cand := ⟨"$12.00".toList, some (mkRat 12 1), 0, "abc $12.00".toList, {}⟩

/-- the second fallback token of `linesC6`. -/
def candC6b : Cand := ⟨"$99.00".toList, some (mkRat 99 1), 1, "def $99.00".toList, {}⟩

/-- a keyword-free document whose first `\S+` token is not numeric. -/
def linesC8 : List (List Char) := ["abc 5.00"].map String.toList

/-- the sentinel-valued first fallback token of `linesC8` under `\S+`. -/
def candC8a : Cand := ⟨"abc".toList, none, 0, "abc 5.00".toList, {}⟩

/-- the numeric second fallback token of `linesC8` under `\S+`. -/
def candC8b : Cand := ⟨"5.00".toList, some (mkRat 5 1), 0, "abc 5.00".toList, {}⟩

theorem pyMaxG_spec {α β : Type} [LinearOrder β] (P : α → Prop) (k : α → β)
    (gt : α → α → Bool)
    (hgt : ∀ a b, P a → P b → (gt a b = true ↔ k b < k a)) :
    ∀ (rest : List α) (c0 : α), P c0 → (∀ x ∈ rest, P x) →
      pyMaxG gt c0 rest ∈ c0 :: rest ∧ ∀ x ∈ c0 :: rest, k x ≤ k (pyMaxG gt c0 rest) := by
  intro rest
  induction rest with
  | nil =>
    intro c0 hP _
    refine ⟨List.mem_cons_self _ _, ?_⟩
    intro x hx
    rcases List.mem_cons.mp hx with rfl | h
    · exact le_refl _
    · exact absurd h (List.not_mem_nil x)
  | cons y ys ih =>
    intro c0 hP hall
    have hPy : P y := hall y (List.mem_cons_self _ _)
    have hys : ∀ x ∈ ys, P x := fun x hx => hall x (List.mem_cons_of_mem _ hx)
    have hstep : pyMaxG gt c0 (y :: ys) = pyMaxG gt (if gt y c0 then y else c0) ys := rfl
    by_cases hg : gt y c0 = true
    · rw [hstep, if_pos hg]
      obtain ⟨hm, hle⟩ := ih y hPy hys
      refine ⟨List.mem_cons_of_mem _ hm, ?_⟩
      intro x hx
      rcases List.mem_cons.mp hx with rfl | hx'
      · exact le_trans (le_of_lt ((hgt y x hPy hP).mp hg))
          (hle y (List.mem_cons_self _ _))
      · exact hle x hx'
    · rw [hstep, if_neg hg]
      obtain ⟨hm, hle⟩ := ih c0 hP hys
      constructor
      · rcases List.mem_cons.mp hm with h | h
        · exact List.mem_cons.mpr (Or.inl h)
        · exact List.mem_cons_of_mem _ (List.mem_cons_of_mem _ h)
      · intro x hx
        rcases List.mem_cons.mp hx with rfl | hx'
        · exact hle x (List.mem_cons_self _ _)
        rcases List.mem_cons.mp hx' with rfl | hx''
        · have : ¬ k c0 < k x := fun hlt => hg ((hgt x c0 hPy hP).mpr hlt)
          exact le_trans (le_of_not_lt this) (hle c0 (List.mem_cons_self _ _))
        · exact hle x (List.mem_cons_of_mem _ hx'')

/-- C4: on a non-empty candidate list whose values are all numeric, the
selector of `pick_invoice_total` returns a candidate of the list that is
maximal for the lexicographic comparison of `(score, value)`: every other
candidate either scores strictly lower, or scores equally with a value
that is at most the winner's. -/
theorem C4_selector_argmax (N : Nat) (due net discourage : List (List Char))
    (c0 : Cand) (rest : List Cand)
    (hsome : ∀ c ∈ c0 :: rest, c.val.isSome = true) :
    selectBest N due net discourage c0 rest ∈ c0 :: rest ∧
      ∀ c ∈ c0 :: rest,
        score_item N due net discourage c
            < score_item N due net discourage (selectBest N due net discourage c0 rest)
          ∨ score_item N due net discourage c
                = score_item N due net discourage (selectBest N due net discourage c0 rest)
              ∧ c.val.getD 0 ≤ (selectBest N due net discourage c0 rest).val.getD 0 := by
  have key := pyMaxG_spec (α := Cand) (β := Lex (ℚ × ℚ))
    (fun c => c.val.isSome = true)
    (fun c => toLex (score_item N due net discourage c, c.val.getD 0))
    (fun x b => pyKeyGT (score_item N due net discourage x, x.val)
      (score_item N due net discourage b, b.val))
    ?_ rest c0 (hsome c0 (List.mem_cons_self _ _))
    (fun x hx => hsome x (List.mem_cons_of_mem _ hx))
  · obtain ⟨hmem, hle⟩ := key
    refine ⟨hmem, ?_⟩
    intro c hc
    have h := hle c hc
    rw [Prod.Lex.le_iff] at h
    simpa using h
  · intro a b ha hb
    obtain ⟨xa, hxa⟩ := Option.isSome_iff_exists.mp ha
    obtain ⟨xb, hxb⟩ := Option.isSome_iff_exists.mp hb
    by_cases hs : score_item N due net discourage a = score_item N due net discourage b
    · simp [pyKeyGT, hs, hxa, hxb, pyValGT, Prod.Lex.lt_iff, decide_eq_true_iff]
    · simp [pyKeyGT, hs, Prod.Lex.lt_iff, decide_eq_true_iff, Ne.symm hs]

/-- witness for C4 at two equal-score candidates differing in value. -/
theorem C4_witness :
    selectBest 1 [] [] [] candA [candB] ∈ candA :: [candB] :=
  (C4_selector_argmax 1 [] [] [] candA [candB] (by decide)).1

theorem pick_fallback_eq (lines anchors : List (List Char))
    (amountsIn : List Char → List (List Char)) (discourage0 : List (List Char))
    (lookahead : Nat) (due0 net0 : List (List Char)) (a0 : Cand) (rest : List Cand)
    (hcand : genCandidates lines anchors (discourage0.map lower) (due0.map lower)
      (net0.map lower) lookahead amountsIn = [])
    (hall : allAmounts lines amountsIn = a0 :: rest) :
    pick_invoice_total lines anchors amountsIn discourage0 lookahead due0 net0
      = (some (fallbackBest a0 rest).amt, "total_max_in_doc") := by
  simp only [pick_invoice_total]
  rw [hcand, hall]

/-- C6: whenever neither heuristic pass produced a candidate, the result
comes from the unfiltered document-wide token list `allAmounts` (which by
definition scans every line, discourage words included): the returned
token belongs to that list, carries the outcome `total_max_in_doc`, and —
when every token's value is numeric — its value is the global maximum. -/
theorem C6_fallback_max (lines anchors : List (List Char))
    (amountsIn : List Char → List (List Char)) (discourage0 : List (List Char))
    (lookahead : Nat) (due0 net0 : List (List Char)) (a0 : Cand) (rest : List Cand)
    (hcand : genCandidates lines anchors (discourage0.map lower) (due0.map lower)
      (net0.map lower) lookahead amountsIn = [])
    (hall : allAmounts lines amountsIn = a0 :: rest)
    (hsome : ∀ c ∈ a0 :: rest, c.val.isSome = true) :
    pick_invoice_total lines anchors amountsIn discourage0 lookahead due0 net0
        = (some (fallbackBest a0 rest).amt, "total_max_in_doc")
      ∧ fallbackBest a0 rest ∈ a0 :: rest
      ∧ ∀ c ∈ a0 :: rest, c.val.getD 0 ≤ (fallbackBest a0 rest).val.getD 0 := by
  have key := pyMaxG_spec (α := Cand) (β := ℚ)
    (fun c => c.val.isSome = true) (fun c => c.val.getD 0)
    (fun x b => pyValGT x.val b.val)
    ?_ rest a0 (hsome a0 (List.mem_cons_self _ _))
    (fun x hx => hsome x (List.mem_cons_of_mem _ hx))
  · exact ⟨pick_fallback_eq lines anchors amountsIn discourage0 lookahead due0 net0
      a0 rest hcand hall, key.1, key.2⟩
  · intro a b ha hb
    obtain ⟨xa, hxa⟩ := Option.isSome_iff_exists.mp ha
    obtain ⟨xb, hxb⟩ := Option.isSome_iff_exists.mp hb
    simp [pyValGT, hxa, hxb, decide_eq_true_iff]

/-- the fold behind the fallback `max` never replaces a current best whose
value is the `nan` sentinel, because every comparison against `nan` is
false. -/
theorem fallbackBest_keep_none :
    ∀ (rest : List Cand) (b : Cand), b.val = none → fallbackBest b rest = b := by
  intro rest
  induction rest with
  | nil => intro b _; rfl
  | cons y ys ih =>
    intro b hb
    have hstep : fallbackBest b (y :: ys)
        = fallbackBest (if pyValGT y.val b.val then y else b) ys := rfl
    have hgt : pyValGT y.val b.val = false := by
      rw [hb]; cases y.val <;> rfl
    rw [hstep, hgt]
    exact ih b hb

/-- C8 (amended): a sentinel-valued token is not excluded from the
fallback argmax.  If the heuristic passes produce nothing and the first
token of the document-wide scan normalises to the `nan` sentinel, that
token is returned — even when numeric-valued tokens follow. -/
theorem C8_amended_sentinel_first (lines anchors : List (List Char))
    (amountsIn : List Char → List (List Char)) (discourage0 : List (List Char))
    (lookahead : Nat) (due0 net0 : List (List Char)) (a0 : Cand) (rest : List Cand)
    (hcand : genCandidates lines anchors (discourage0.map lower) (due0.map lower)
      (net0.map lower) lookahead amountsIn = [])
    (hall : allAmounts lines amountsIn = a0 :: rest)
    (hnan : a0.val = none) :
    pick_invoice_total lines anchors amountsIn discourage0 lookahead due0 net0
      = (some a0.amt, "total_max_in_doc") := by
  rw [pick_fallback_eq lines anchors amountsIn discourage0 lookahead due0 net0
    a0 rest hcand hall, fallbackBest_keep_none rest a0 hnan]

/-- C2 (amended): the score of a candidate is the additive formula the
code implements: `+6` for the `anchor` flag, `+5` for a due keyword in
the line text, `+3` for the `anchor_next` flag, `+1` for a net keyword,
`-6` for a discourage word, plus `2 · idx / N`; there is no tax-context
term of any kind. -/
theorem C2_amended_formula (N : Nat) (due net discourage : List (List Char))
    (c : Cand) (hN : N ≠ 0) :
    score_item N due net discourage c =
      (if c.flags.anchor then (6 : ℚ) else 0)
        + (if due.any (fun k => containsSub k (lower c.line)) then 5 else 0)
        + (if c.flags.anchorNext.isSome then 3 else 0)
        + (if net.any (fun k => containsSub k (lower c.line)) then 1 else 0)
        - (if discourage.any (fun dw => containsSub dw (lower c.line)) then 6 else 0)
        + 2 * ((c.idx : ℚ) / (N : ℚ)) := by
  have hN' : (N : ℚ) ≠ 0 := Nat.cast_ne_zero.mpr hN
  have hlin : ∀ (s : Int),
      mkRat (s * (N : Int) + 2 * (c.idx : Int)) N
        = (s : ℚ) + 2 * ((c.idx : ℚ) / (N : ℚ)) := by
    intro s
    rw [Rat.mkRat_eq_div]
    push_cast
    field_simp
  simp only [score_item]
  rw [hlin]
  split_ifs <;> (push_cast; try ring)

theorem beq_false_of_class (P : Char → Bool) (c x : Char) (h : P c = true)
    (hx : P x = false) : (c == x) = false := by
  cases hcx : c == x with
  | false => rfl
  | true =>
    have hcx' : c = x := eq_of_beq hcx
    subst hcx'
    rw [h] at hx
    simp at hx

theorem digit_not_space (c : Char) (h : isDigitC c = true) : isSpacePy c = false := by
  unfold isSpacePy
  rw [beq_false_of_class isDigitC c ' ' h (by decide),
    beq_false_of_class isDigitC c '\t' h (by decide),
    beq_false_of_class isDigitC c '\n' h (by decide),
    beq_false_of_class isDigitC c '\r' h (by decide),
    beq_false_of_class isDigitC c '\x0b' h (by decide),
    beq_false_of_class isDigitC c '\x0c' h (by decide)]
  rfl

theorem digit_keep (c : Char) (h : isDigitC c = true) : keepChar c = true := by
  unfold keepChar
  rw [beq_false_of_class isDigitC c '$' h (by decide),
    beq_false_of_class isDigitC c ',' h (by decide),
    beq_false_of_class isDigitC c '(' h (by decide),
    beq_false_of_class isDigitC c ')' h (by decide)]
  rfl

theorem space_keep (c : Char) (h : isSpacePy c = true) : keepChar c = true := by
  unfold keepChar
  rw [beq_false_of_class isSpacePy c '$' h (by decide),
    beq_false_of_class isSpacePy c ',' h (by decide),
    beq_false_of_class isSpacePy c '(' h (by decide),
    beq_false_of_class isSpacePy c ')' h (by decide)]
  rfl

theorem dropWhile_append_all (p : Char → Bool) (xs ys : List Char)
    (hxs : ∀ x ∈ xs, p x = true) : (xs ++ ys).dropWhile p = ys.dropWhile p := by
  induction xs with
  | nil => rfl
  | cons a t ih =>
    have ha := hxs a (List.mem_cons_self _ _)
    simp only [List.cons_append, List.dropWhile_cons, ha, if_true]
    exact ih (fun x hx => hxs x (List.mem_cons_of_mem _ hx))

theorem dropWhile_head_false (p : Char → Bool) (l : List Char)
    (h : ∀ c, l.head? = some c → p c = false) : l.dropWhile p = l := by
  cases l with
  | nil => rfl
  | cons a t => simp [List.dropWhile_cons, h a rfl]

theorem takeWhile_append_all (p : Char → Bool) (xs ys : List Char)
    (hxs : ∀ x ∈ xs, p x = true) (hys : ∀ c, ys.head? = some c → p c = false) :
    (xs ++ ys).takeWhile p = xs := by
  induction xs with
  | nil =>
    cases ys with
    | nil => rfl
    | cons a t => simp [List.takeWhile_cons, hys a rfl]
  | cons a t ih =>
    have ha := hxs a (List.mem_cons_self _ _)
    simp only [List.cons_append, List.takeWhile_cons, ha, if_true]
    rw [ih (fun x hx => hxs x (List.mem_cons_of_mem _ hx))]

theorem dropWhile_append_eq (p : Char → Bool) (xs ys : List Char)
    (hxs : ∀ x ∈ xs, p x = true) (hys : ∀ c, ys.head? = some c → p c = false) :
    (xs ++ ys).dropWhile p = ys := by
  rw [dropWhile_append_all p xs ys hxs, dropWhile_head_false p ys hys]

theorem pyStrip_eq_self (l : List Char)
    (h1 : ∀ c, l.head? = some c → isSpacePy c = false)
    (h2 : ∀ c, l.getLast? = some c → isSpacePy c = false) : pyStrip l = l := by
  unfold pyStrip
  rw [dropWhile_head_false _ l h1,
    dropWhile_head_false _ l.reverse (fun c hc => h2 c ((List.head?_reverse l) ▸ hc)),
    List.reverse_reverse]

theorem pyStrip_ws_wrap (xs ys : List Char)
    (hxs : ∀ c ∈ xs, isSpacePy c = true)
    (h1 : ∀ c, ys.head? = some c → isSpacePy c = false)
    (h2 : ∀ c, ys.getLast? = some c → isSpacePy c = false) :
    pyStrip (xs ++ ys) = ys := by
  unfold pyStrip
  rw [dropWhile_append_eq _ xs ys hxs h1,
    dropWhile_head_false _ ys.reverse (fun c hc => h2 c ((List.head?_reverse ys) ▸ hc)),
    List.reverse_reverse]

theorem digits_getLast (xs : List Char) (h : ∀ c ∈ xs, isDigitC c = true) :
    ∀ c, xs.getLast? = some c → isDigitC c = true :=
  fun c hc => h c (List.mem_of_mem_getLast? hc)

theorem eatOpt_spec (c : Char) (l : List Char) :
    (eatOpt c l).1 ++ (eatOpt c l).2 = l
      ∧ ((eatOpt c l).1 = [] ∨ (eatOpt c l).1 = [c]) := by
  cases l with
  | nil => exact ⟨rfl, Or.inl rfl⟩
  | cons x t =>
    by_cases h : (x == c) = true
    · have hx : x = c := eq_of_beq h
      subst hx
      simp [eatOpt, h]
    · simp only [eatOpt]
      rw [if_neg h]
      exact ⟨rfl, Or.inl rfl⟩

theorem eatWs_spec (l : List Char) :
    (eatWs l).1 ++ (eatWs l).2 = l ∧ ∀ c ∈ (eatWs l).1, isSpacePy c = true :=
  ⟨List.takeWhile_append_dropWhile isSpacePy l, fun _ hc => List.mem_takeWhile_imp hc⟩

theorem eatD3_spec (l : List Char) :
    (eatD3 l).1 ++ (eatD3 l).2 = l ∧ ∀ c ∈ (eatD3 l).1, isDigitC c = true := by
  simp only [eatD3]
  refine ⟨?_, ?_⟩
  · exact List.prefix_iff_eq_append.mp
      (List.IsPrefix.trans (List.take_prefix 3 _) (List.takeWhile_prefix _))
  · intro c hc
    exact List.mem_takeWhile_imp (List.mem_of_mem_take hc)

theorem eatGroups_spec (l : List Char) :
    (eatGroups l).1 ++ (eatGroups l).2 = l
      ∧ (∀ c ∈ (eatGroups l).1, c = ',' ∨ isDigitC c = true)
      ∧ ∀ c, ((eatGroups l).1).getLast? = some c → isDigitC c = true := by
  induction l using eatGroups.induct with
  | case1 a b c t h ih =>
    obtain ⟨ih1, ih2, ih3⟩ := ih
    have h3 : isDigitC a = true ∧ isDigitC b = true ∧ isDigitC c = true := by
      simpa [Bool.and_eq_true, and_assoc] using h
    simp only [eatGroups, h, if_true]
    refine ⟨by simpa using ih1, ?_, ?_⟩
    · intro x hx
      simp only [List.mem_cons] at hx
      rcases hx with rfl | rfl | rfl | rfl | hx
      · exact Or.inl rfl
      · exact Or.inr h3.1
      · exact Or.inr h3.2.1
      · exact Or.inr h3.2.2
      · exact ih2 x hx
    · intro x hx
      rcases hg : (eatGroups t).1 with _ | ⟨y, ys⟩
      · rw [hg] at hx
        simp at hx
        subst hx
        exact h3.2.2
      · rw [hg] at hx
        rw [List.getLast?_cons_cons, List.getLast?_cons_cons,
          List.getLast?_cons_cons, List.getLast?_cons_cons] at hx
        exact ih3 x (by rw [hg]; exact hx)
  | case2 a b c t h =>
    simp [eatGroups, h]
  | case3 l h =>
    unfold eatGroups
    split
    · exact (h _ _ _ _ rfl).elim
    · exact ⟨rfl, by simp, by simp⟩

theorem eatFrac_spec (l : List Char) :
    (eatFrac l).1 ++ (eatFrac l).2 = l
      ∧ ((eatFrac l).1 = []
        ∨ ∃ a b, (eatFrac l).1 = ['.', a, b] ∧ isDigitC a = true ∧ isDigitC b = true) := by
  match l with
  | [] => exact ⟨rfl, Or.inl rfl⟩
  | [c] => exact ⟨rfl, Or.inl rfl⟩
  | [c, a] => exact ⟨rfl, Or.inl rfl⟩
  | c :: a :: b :: t =>
    by_cases h : (c == '.' && isDigitC a && isDigitC b) = true
    · have h3 : (c == '.') = true ∧ isDigitC a = true ∧ isDigitC b = true := by
        simpa [Bool.and_eq_true, and_assoc] using h
      have hc : c = '.' := eq_of_beq h3.1
      subst hc
      simp only [eatFrac, h, if_true]
      exact ⟨rfl, Or.inr ⟨a, b, rfl, h3.2.1, h3.2.2⟩⟩
    · simp only [eatFrac]
      rw [if_neg h]
      exact ⟨rfl, Or.inl rfl⟩

theorem pyFloat_shape (m dsAll f : List Char)
    (hm : m = [] ∨ m = ['-'])
    (hne : dsAll ≠ [])
    (hds : ∀ c ∈ dsAll, isDigitC c = true)
    (hf : f = [] ∨ ∃ a b, f = ['.', a, b] ∧ isDigitC a = true ∧ isDigitC b = true) :
    (pyFloat (m ++ (dsAll ++ f))).isSome = true := by
  obtain ⟨d0, ds', rfl⟩ : ∃ d0 ds', dsAll = d0 :: ds' := by
    cases dsAll with
    | nil => exact absurd rfl hne
    | cons x xs => exact ⟨x, xs, rfl⟩
  have hd0 : isDigitC d0 = true := hds d0 (List.mem_cons_self _ _)
  have hfhead : ∀ c, f.head? = some c → isDigitC c = false := by
    rcases hf with rfl | ⟨a, b, rfl, ha, hb⟩
    · intro c hc; simp at hc
    · intro c hc
      obtain rfl : c = '.' := by simpa using hc.symm
      decide
  have hdl : ∃ u, (d0 :: ds').getLast? = some u ∧ isDigitC u = true := by
    obtain ⟨u, hu⟩ := Option.isSome_iff_exists.mp
      (List.getLast?_isSome.mpr (List.cons_ne_nil d0 ds'))
    exact ⟨u, hu, digits_getLast _ hds u hu⟩
  have hYlastd : ∀ c, (m ++ ((d0 :: ds') ++ f)).getLast? = some c → isDigitC c = true := by
    obtain ⟨u, hu, hud⟩ := hdl
    intro c hc
    rw [List.getLast?_append, List.getLast?_append] at hc
    rcases hf with rfl | ⟨a, b, rfl, ha, hb⟩
    · rw [hu] at hc
      simp at hc
      subst hc
      exact hud
    · have hfl : (['.', a, b] : List Char).getLast? = some b := rfl
      rw [hfl] at hc
      simp at hc
      subst hc
      exact hb
  have hYhead : ∀ c, (m ++ ((d0 :: ds') ++ f)).head? = some c → isSpacePy c = false := by
    rcases hm with rfl | rfl
    · intro c hc
      simp only [List.nil_append, List.cons_append, List.head?_cons] at hc
      obtain rfl : c = d0 := by simpa using hc.symm
      exact digit_not_space _ hd0
    · intro c hc
      simp only [List.cons_append, List.nil_append, List.head?_cons] at hc
      obtain rfl : c = '-' := by simpa using hc.symm
      decide
  have hstrip : pyStrip (m ++ ((d0 :: ds') ++ f)) = m ++ ((d0 :: ds') ++ f) :=
    pyStrip_eq_self _ hYhead (fun c hc => digit_not_space c (hYlastd c hc))
  have htw : List.takeWhile isDigitC (d0 :: (ds' ++ f)) = d0 :: ds' := by
    have := takeWhile_append_all isDigitC (d0 :: ds') f hds hfhead
    simpa using this
  have hdw : List.dropWhile isDigitC (d0 :: (ds' ++ f)) = f := by
    have := dropWhile_append_eq isDigitC (d0 :: ds') f hds hfhead
    simpa using this
  simp only [pyFloat]
  rw [hstrip]
  rcases hm with rfl | rfl
  · simp only [List.nil_append, List.cons_append]
    have hsign : splitSign (d0 :: (ds' ++ f)) = (1, d0 :: (ds' ++ f)) := by
      simp [splitSign, beq_false_of_class isDigitC d0 '+' hd0 (by decide),
        beq_false_of_class isDigitC d0 '-' hd0 (by decide)]
    simp only [hsign, htw, hdw]
    rcases hf with rfl | ⟨a, b, rfl, ha, hb⟩
    · simp [splitFrac]
    · have hsf : splitFrac ['.', a, b] = ([a, b], []) := by
        simp [splitFrac, List.takeWhile_cons, List.dropWhile_cons, ha, hb]
      simp [hsf]
  · simp only [List.cons_append, List.nil_append]
    have hsign : splitSign ('-' :: (d0 :: (ds' ++ f))) = (-1, d0 :: (ds' ++ f)) := by
      simp [splitSign]
    simp only [hsign, htw, hdw]
    rcases hf with rfl | ⟨a, b, rfl, ha, hb⟩
    · simp [splitFrac]
    · have hsf : splitFrac ['.', a, b] = ([a, b], []) := by
        simp [splitFrac, List.takeWhile_cons, List.dropWhile_cons, ha, hb]
      simp [hsf]

theorem cleanAmount_shape (d w m p ds gs f rp : List Char)
    (hd : d = [] ∨ d = ['$'])
    (hw : ∀ c ∈ w, isSpacePy c = true)
    (hm : m = [] ∨ m = ['-'])
    (hp : p = [] ∨ p = ['('])
    (hne : ds ≠ [])
    (hds : ∀ c ∈ ds, isDigitC c = true)
    (hgs : ∀ c ∈ gs, c = ',' ∨ isDigitC c = true)
    (hgsl : ∀ c, gs.getLast? = some c → isDigitC c = true)
    (hf : f = [] ∨ ∃ a b, f = ['.', a, b] ∧ isDigitC a = true ∧ isDigitC b = true)
    (hrp : rp = [] ∨ rp = [')']) :
    cleanAmount (d ++ (w ++ (m ++ (p ++ (ds ++ (gs ++ (f ++ rp)))))))
      = m ++ (ds ++ (gs.filter keepChar ++ f)) := by
  obtain ⟨d0, ds', rfl⟩ : ∃ d0 ds', ds = d0 :: ds' := by
    cases ds with
    | nil => exact absurd rfl hne
    | cons x xs => exact ⟨x, xs, rfl⟩
  have hd0 : isDigitC d0 = true := hds d0 (List.mem_cons_self _ _)
  have hgsD : ∀ c ∈ (d0 :: ds').filter keepChar ++ [], True := fun _ _ => trivial
  clear hgsD
  have hgsDigit : ∀ c ∈ gs.filter keepChar, isDigitC c = true := by
    intro c hc
    obtain ⟨hmem, hkeep⟩ := List.mem_filter.mp hc
    rcases hgs c hmem with rfl | hdig
    · exact absurd hkeep (by decide)
    · exact hdig
  -- the last character of the core `Y` is a digit or a closing parenthesis
  have hYlast : ∀ c,
      (m ++ (p ++ ((d0 :: ds') ++ (gs ++ (f ++ rp))))).getLast? = some c →
        isSpacePy c = false := by
    intro c hc
    rw [List.getLast?_append, List.getLast?_append, List.getLast?_append,
      List.getLast?_append, List.getLast?_append] at hc
    rcases hrp with rfl | rfl
    · rw [List.getLast?_nil, Option.none_or] at hc
      rcases hf with rfl | ⟨a, b, rfl, ha, hb⟩
      · rw [List.getLast?_nil, Option.none_or] at hc
        cases hgsO : gs.getLast? with
        | some u =>
          rw [hgsO] at hc
          obtain rfl : c = u := by simpa using hc.symm
          exact digit_not_space _ (hgsl c hgsO)
        | none =>
          rw [hgsO, Option.none_or] at hc
          obtain ⟨u, hu⟩ := Option.isSome_iff_exists.mp
            (List.getLast?_isSome.mpr (List.cons_ne_nil d0 ds'))
          rw [hu] at hc
          obtain rfl : c = u := by simpa using hc.symm
          exact digit_not_space _ (digits_getLast _ hds c hu)
      · rw [show (['.', a, b] : List Char).getLast? = some b from rfl] at hc
        obtain rfl : c = b := by simpa using hc.symm
        exact digit_not_space _ hb
    · rw [show (([')'] : List Char)).getLast? = some ')' from rfl] at hc
      obtain rfl : c = ')' := by simpa using hc.symm
      decide
  -- the first character of the core `Y` is `-`, `(` or a digit
  have hYhead : ∀ c,
      (m ++ (p ++ ((d0 :: ds') ++ (gs ++ (f ++ rp))))).head? = some c →
        isSpacePy c = false := by
    rcases hm with rfl | rfl
    · rcases hp with rfl | rfl
      · intro c hc
        simp only [List.nil_append, List.cons_append, List.head?_cons] at hc
        obtain rfl : c = d0 := by simpa using hc.symm
        exact digit_not_space _ hd0
      · intro c hc
        simp only [List.nil_append, List.cons_append, List.head?_cons] at hc
        obtain rfl : c = '(' := by simpa using hc.symm
        decide
    · intro c hc
      simp only [List.nil_append, List.cons_append, List.head?_cons] at hc
      obtain rfl : c = '-' := by simpa using hc.symm
      decide
  have hYne : (m ++ (p ++ ((d0 :: ds') ++ (gs ++ (f ++ rp))))) ≠ [] := by
    intro hcontra
    simp [List.append_eq_nil] at hcontra
  -- the filtered core
  have hfm : m.filter keepChar = m := by
    rcases hm with rfl | rfl
    · rfl
    · decide
  have hfp : p.filter keepChar = [] := by
    rcases hp with rfl | rfl
    · rfl
    · decide
  have hfds : (d0 :: ds').filter keepChar = d0 :: ds' :=
    List.filter_eq_self.mpr (fun c hcm => digit_keep c (hds c hcm))
  have hff : f.filter keepChar = f := by
    rcases hf with rfl | ⟨a, b, rfl, ha, hb⟩
    · rfl
    · refine List.filter_eq_self.mpr ?_
      intro c hcm
      simp only [List.mem_cons] at hcm
      rcases hcm with rfl | rfl | rfl | h
      · decide
      · exact digit_keep _ ha
      · exact digit_keep _ hb
      · exact absurd h (List.not_mem_nil c)
  have hfrp : rp.filter keepChar = [] := by
    rcases hrp with rfl | rfl
    · rfl
    · decide
  have hfilY : (m ++ (p ++ ((d0 :: ds') ++ (gs ++ (f ++ rp))))).filter keepChar
      = m ++ ((d0 :: ds') ++ (gs.filter keepChar ++ f)) := by
    simp only [List.filter_append, hfm, hfp, hfds, hff, hfrp, List.nil_append,
      List.append_nil]
  -- head and last of the filtered core
  have hFlast : ∀ c,
      (m ++ ((d0 :: ds') ++ (gs.filter keepChar ++ f))).getLast? = some c →
        isSpacePy c = false := by
    intro c hc
    rw [List.getLast?_append, List.getLast?_append, List.getLast?_append] at hc
    rcases hf with rfl | ⟨a, b, rfl, ha, hb⟩
    · rw [List.getLast?_nil, Option.none_or] at hc
      cases hgsO : (gs.filter keepChar).getLast? with
      | some u =>
        rw [hgsO] at hc
        obtain rfl : c = u := by simpa using hc.symm
        exact digit_not_space _ (digits_getLast _ hgsDigit c hgsO)
      | none =>
        rw [hgsO, Option.none_or] at hc
        obtain ⟨u, hu⟩ := Option.isSome_iff_exists.mp
          (List.getLast?_isSome.mpr (List.cons_ne_nil d0 ds'))
        rw [hu] at hc
        obtain rfl : c = u := by simpa using hc.symm
        exact digit_not_space _ (digits_getLast _ hds c hu)
    · rw [show (['.', a, b] : List Char).getLast? = some b from rfl] at hc
      obtain rfl : c = b := by simpa using hc.symm
      exact digit_not_space _ hb
  have hFhead : ∀ c,
      (m ++ ((d0 :: ds') ++ (gs.filter keepChar ++ f))).head? = some c →
        isSpacePy c = false := by
    rcases hm with rfl | rfl
    · intro c hc
      simp only [List.nil_append, List.cons_append, List.head?_cons] at hc
      obtain rfl : c = d0 := by simpa using hc.symm
      exact digit_not_space _ hd0
    · intro c hc
      simp only [List.nil_append, List.cons_append, List.head?_cons] at hc
      obtain rfl : c = '-' := by simpa using hc.symm
      decide
  -- now compute `cleanAmount`
  rcases hd with rfl | rfl
  · -- no dollar sign: the inner strip removes the whitespace block
    have hstrip : pyStrip ([] ++ (w ++ (m ++ (p ++ ((d0 :: ds') ++ (gs ++ (f ++ rp)))))))
        = m ++ (p ++ ((d0 :: ds') ++ (gs ++ (f ++ rp)))) := by
      rw [List.nil_append]
      exact pyStrip_ws_wrap w _ hw hYhead hYlast
    unfold cleanAmount
    rw [hstrip, hfilY]
    exact pyStrip_eq_self _ hFhead hFlast
  · -- dollar sign: the inner strip is the identity, the filter removes `$`
    have hlast' : ∀ c,
        (('$' :: (w ++ (m ++ (p ++ ((d0 :: ds') ++ (gs ++ (f ++ rp))))))).getLast?
          = some c) → isSpacePy c = false := by
      intro c hc
      rw [show ('$' :: (w ++ (m ++ (p ++ ((d0 :: ds') ++ (gs ++ (f ++ rp)))))))
          = ['$'] ++ (w ++ (m ++ (p ++ ((d0 :: ds') ++ (gs ++ (f ++ rp))))))
        from rfl, List.getLast?_append, List.getLast?_append] at hc
      obtain ⟨u, hu⟩ := Option.isSome_iff_exists.mp (List.getLast?_isSome.mpr hYne)
      rw [hu] at hc
      obtain rfl : c = u := by simpa using hc.symm
      exact hYlast c hu
    have hstrip : pyStrip (['$'] ++ (w ++ (m ++ (p ++ ((d0 :: ds') ++ (gs ++ (f ++ rp)))))))
        = '$' :: (w ++ (m ++ (p ++ ((d0 :: ds') ++ (gs ++ (f ++ rp)))))) := by
      rw [show (['$'] ++ (w ++ (m ++ (p ++ ((d0 :: ds') ++ (gs ++ (f ++ rp)))))))
          = '$' :: (w ++ (m ++ (p ++ ((d0 :: ds') ++ (gs ++ (f ++ rp)))))) from rfl]
      refine pyStrip_eq_self _ ?_ hlast'
      intro c hc
      obtain rfl : c = '$' := by simpa using hc.symm
      decide
    have hfw : w.filter keepChar = w :=
      List.filter_eq_self.mpr (fun c hcm => space_keep c (hw c hcm))
    unfold cleanAmount
    rw [hstrip, List.filter_cons_of_neg (by decide), List.filter_append, hfw, hfilY]
    exact pyStrip_ws_wrap w _ hw hFhead hFlast

/-- C10: every string fully matched by the default amount pattern
`\$?\s*-?\(?\d{1,3}(?:,\d{3})*(?:\.\d{2})?\)?` normalises to a real
numeric value: the exception branch of `_amount_to_number` (the
`float("nan")` sentinel) is unreachable for tokens of that pattern. -/
theorem C10_regex_tokens_numeric (s : List Char)
    (h : amountRegexFullMatch s = true) :
    (amount_to_number s).isSome = true := by
  simp only [amountRegexFullMatch] at h
  set e1 := eatOpt '$' s with he1
  set e2 := eatWs e1.2 with he2
  set e3 := eatOpt '-' e2.2 with he3
  set e4 := eatOpt '(' e3.2 with he4
  set e5 := eatD3 e4.2 with he5
  set e6 := eatGroups e5.2 with he6
  set e7 := eatFrac e6.2 with he7
  set e8 := eatOpt ')' e7.2 with he8
  obtain ⟨h1c, h1s⟩ := eatOpt_spec '$' s
  rw [← he1] at h1c h1s
  obtain ⟨h2c, h2s⟩ := eatWs_spec e1.2
  rw [← he2] at h2c h2s
  obtain ⟨h3c, h3s⟩ := eatOpt_spec '-' e2.2
  rw [← he3] at h3c h3s
  obtain ⟨h4c, h4s⟩ := eatOpt_spec '(' e3.2
  rw [← he4] at h4c h4s
  obtain ⟨h5c, h5s⟩ := eatD3_spec e4.2
  rw [← he5] at h5c h5s
  obtain ⟨h6c, hg1, hg2⟩ := eatGroups_spec e5.2
  rw [← he6] at h6c hg1 hg2
  obtain ⟨h7c, h7s⟩ := eatFrac_spec e6.2
  rw [← he7] at h7c h7s
  obtain ⟨h8c, h8s⟩ := eatOpt_spec ')' e7.2
  rw [← he8] at h8c h8s
  by_cases hemp : e5.1.isEmpty = true
  · rw [if_pos hemp] at h
    simp at h
  · rw [if_neg hemp] at h
    have hrest : e8.2 = [] := by
      cases hx : e8.2 with
      | nil => rfl
      | cons y ys => rw [hx] at h; simp at h
    have hdsne : e5.1 ≠ [] := fun hx => hemp (by rw [hx]; rfl)
    have hs : s = e1.1 ++ (e2.1 ++ (e3.1 ++ (e4.1 ++ (e5.1 ++ (e6.1 ++ (e7.1 ++ e8.1)))))) := by
      rw [← h1c, ← h2c, ← h3c, ← h4c, ← h5c, ← h6c, ← h7c, ← h8c, hrest, List.append_nil]
    have hclean : cleanAmount s = e3.1 ++ (e5.1 ++ (e6.1.filter keepChar ++ e7.1)) := by
      rw [hs]
      exact cleanAmount_shape e1.1 e2.1 e3.1 e4.1 e5.1 e6.1 e7.1 e8.1
        h1s h2s h3s h4s hdsne h5s hg1 hg2 h7s h8s
    have hdigits : ∀ c ∈ e5.1 ++ e6.1.filter keepChar, isDigitC c = true := by
      intro c hc
      rcases List.mem_append.mp hc with hc1 | hc2
      · exact h5s c hc1
      · obtain ⟨hmem, hkeep⟩ := List.mem_filter.mp hc2
        rcases hg1 c hmem with rfl | hdig
        · exact absurd hkeep (by decide)
        · exact hdig
    have hdne : e5.1 ++ e6.1.filter keepChar ≠ [] := by
      intro hx
      exact hdsne (List.append_eq_nil.mp hx).1
    have hnum : (pyFloat (cleanAmount s)).isSome = true := by
      rw [hclean, ← List.append_assoc e5.1 (e6.1.filter keepChar) e7.1]
      exact pyFloat_shape e3.1 (e5.1 ++ e6.1.filter keepChar) e7.1 h3s hdne hdigits h7s
    obtain ⟨v, hv⟩ := Option.isSome_iff_exists.mp hnum
    simp [amount_to_number, hv]

/-- C1 counterexample: for the single-line document `"Subtotal: $100.00"`
under the default configuration the outcome is neither `total_not_found`
nor `total_max_in_doc`, contrary to the claim. -/
theorem C1_counterexample :
    ¬ ((runDefault ["Subtotal: $100.00"]).2 = "total_not_found"
      ∨ (runDefault ["Subtotal: $100.00"]).2 = "total_max_in_doc") := by
  decide

/-- C1 (amended): `"subtotal"` contains the total-ish phrase `"total"` as
a substring, so the total-ish pass yields the subtotal as the only
candidate and `pick_invoice_total` returns it as `total_scored_final`. -/
theorem C1_amended_subtotal_scored :
    runDefault ["Subtotal: $100.00"] = (some "$100.00".toList, "total_scored_final") := by
  decide

/-- C2 counterexample: for the real candidate that the code generates for
the document `["Total Due $10.00"]`, the code's score (5, from the due
keyword) differs from the spec's claimed formula (7 for the due keyword,
plus a tax-context term that the code does not have). -/
theorem C2_counterexample :
    candC2 ∈ genCandidates linesC2 default_anchors (default_discourage.map lower)
        (default_due.map lower) (default_net.map lower) 2 amounts_in
      ∧ score_item 1 (default_due.map lower) (default_net.map lower)
          (default_discourage.map lower) candC2
        ≠ spec_claimed_score linesC2 1 (default_due.map lower) (default_net.map lower)
            (default_discourage.map lower) candC2 := by
  constructor
  · decide
  · have h1 : score_item 1 (default_due.map lower) (default_net.map lower)
        (default_discourage.map lower) candC2 = mkRat 5 1 := by decide
    have ha : candC2.flags.anchor = false := rfl
    have hdue : ((default_due.map lower).any fun k =>
        containsSub k (lower candC2.line)) = true := by decide
    have hax : candC2.flags.anchorNext.isSome = false := rfl
    have hnet : ((default_net.map lower).any fun k =>
        containsSub k (lower candC2.line)) = false := by decide
    have hadj : ((adjusterIdx linesC2).any fun j =>
        decide (candC2.idx - 8 ≤ j) && decide (j ≤ candC2.idx)) = false := by decide
    have hdis : ((default_discourage.map lower).any fun dw =>
        containsSub dw (lower candC2.line)) = false := by decide
    have hidx : candC2.idx = 0 := rfl
    have h2 : spec_claimed_score linesC2 1 (default_due.map lower)
        (default_net.map lower) (default_discourage.map lower) candC2 = 7 := by
      simp [spec_claimed_score, ha, hdue, hax, hnet, hadj, hdis, hidx]
      decide
    rw [h1, h2]
    have h5 : mkRat 5 1 = (5 : ℚ) := by decide
    rw [h5]
    norm_num

/-- C2 witness: the amended formula instantiated at the concrete candidate
of `linesC2` with `N = 1`. -/
theorem C2_witness :
    score_item 1 (default_due.map lower) (default_net.map lower)
        (default_discourage.map lower) candC2
      = (if candC2.flags.anchor then (6 : ℚ) else 0)
        + (if (default_due.map lower).any
            (fun k => containsSub k (lower candC2.line)) then 5 else 0)
        + (if candC2.flags.anchorNext.isSome then 3 else 0)
        + (if (default_net.map lower).any
            (fun k => containsSub k (lower candC2.line)) then 1 else 0)
        - (if (default_discourage.map lower).any
            (fun dw => containsSub dw (lower candC2.line)) then 6 else 0)
        + 2 * ((candC2.idx : ℚ) / ((1 : Nat) : ℚ)) :=
  C2_amended_formula 1 (default_due.map lower) (default_net.map lower)
    (default_discourage.map lower) candC2 (by decide)

/-- C3: with `"Tax $10.00"` on line 5 followed by `"Total $210.00"` on
line 6, and an unrelated `"Total $50.00"` on line 1 with no preceding tax
line and no due keyword anywhere, `pick_invoice_total` selects `210.00`
(the amount text `"$210.00"`). -/
theorem C3_tax_context_scenario :
    runDefault ["alpha", "Total $50.00", "beta", "gamma", "delta", "Tax $10.00",
        "Total $210.00"]
      = (some "$210.00".toList, "total_scored_final") := by
  decide

/-- C5: the end-to-end scenario of the spec: the anchored `"Total Due"`
line wins with its verbatim amount text and the `total_scored_final`
outcome. -/
theorem C5_end_to_end :
    pick_invoice_total
        (["Subtotal  $500.00", "Sales Tax  $40.00", "Total Due  $540.00"].map String.toList)
        (["Total Due"].map String.toList) amounts_in
        (["subtotal", "sales tax"].map String.toList) 2
        (["total due"].map String.toList) []
      = (some "$540.00".toList, "total_scored_final") := by
  decide

/-- C6 witness: the fallback maximum on a concrete keyword-free document. -/
theorem C6_witness :
    pick_invoice_total linesC6 default_anchors amounts_in default_discourage 2
        default_due default_net
      = (some (fallbackBest candC6a [candC6b]).amt, "total_max_in_doc") :=
  (C6_fallback_max linesC6 default_anchors amounts_in default_discourage 2 default_due
    default_net candC6a [candC6b] (by decide) (by decide) (by decide)).1

/-- C7: `_amount_to_number` maps `"$1,234.56"` to `1234.56`,
`"(1,234.56)"` to `-1234.56` and `"1234.56"` to `1234.56`, and whenever
the residual text is not parseable as a float it returns the
not-a-number sentinel (it is a total function, so it never raises). -/
theorem C7_amount_normalization :
    amount_to_number "$1,234.56".toList = some (1234.56 : ℚ)
      ∧ amount_to_number "(1,234.56)".toList = some (-1234.56 : ℚ)
      ∧ amount_to_number "1234.56".toList = some (1234.56 : ℚ)
      ∧ ∀ txt, pyFloat (cleanAmount txt) = none → amount_to_number txt = none := by
  refine ⟨?_, ?_, ?_, ?_⟩
  · have h : amount_to_number "$1,234.56".toList = some (mkRat 123456 100) := by decide
    rw [h]
    congr 1
    rw [Rat.mkRat_eq_div]
    norm_num
  · have h : amount_to_number "(1,234.56)".toList = some (mkRat (-123456) 100) := by
      decide
    rw [h]
    congr 1
    rw [Rat.mkRat_eq_div]
    norm_num
  · have h : amount_to_number "1234.56".toList = some (mkRat 123456 100) := by decide
    rw [h]
    congr 1
    rw [Rat.mkRat_eq_div]
    norm_num
  · intro txt hnone
    simp [amount_to_number, hnone]

/-- C7 witness: the sentinel case at a concrete non-numeric string. -/
theorem C7_witness : amount_to_number "xy".toList = none :=
  C7_amount_normalization.2.2.2 "xy".toList (by decide)

/-- C8 counterexample: under a vendor-configured amount pattern `\S+` the
fallback returns the sentinel-valued token `"abc"` even though the
numeric-valued token `"5.00"` exists in the same document, so sentinel
values are not excluded from the argmax. -/
theorem C8_counterexample :
    pick_invoice_total linesC8 default_anchors splitWsTokens default_discourage 2
        default_due default_net
      = (some "abc".toList, "total_max_in_doc")
      ∧ amount_to_number "abc".toList = none
      ∧ "5.00".toList ∈ splitWsTokens "abc 5.00".toList
      ∧ amount_to_number "5.00".toList = some (mkRat 5 1) := by
  refine ⟨by decide, by decide, by decide, by decide⟩

/-- C8 witness: the amended statement instantiated at the concrete `\S+`
scenario. -/
theorem C8_witness :
    pick_invoice_total linesC8 default_anchors splitWsTokens default_discourage 2
        default_due default_net = (some candC8a.amt, "total_max_in_doc") :=
  C8_amended_sentinel_first linesC8 default_anchors splitWsTokens default_discourage 2
    default_due default_net candC8a [candC8b] (by decide) (by decide) (by decide)

/-- C9: on the empty document `pick_invoice_total` returns exactly
`(None, "total_not_found")`, for every configuration. -/
theorem C9_empty_document (anchors : List (List Char))
    (amountsIn : List Char → List (List Char)) (discourage0 : List (List Char))
    (lookahead : Nat) (due0 net0 : List (List Char)) :
    pick_invoice_total [] anchors amountsIn discourage0 lookahead due0 net0
      = (none, "total_not_found") := rfl

/-- C10 witness: a concrete token of the default pattern evaluates to a
numeric value. -/
theorem C10_witness : (amount_to_number "$1,234.56".toList).isSome = true :=
  C10_regex_tokens_numeric "$1,234.56".toList (by decide)

/-- C9 witness: the empty document under the default configuration. -/
theorem C9_witness :
    pick_invoice_total [] default_anchors amounts_in default_discourage 2
        default_due default_net = (none, "total_not_found") :=
  C9_empty_document default_anchors amounts_in default_discourage 2 default_due
    default_net

end Validator
